import Mathlib

/-
Verification of the marker-detection calibration pipeline and the
verse-highlight geometry engine of the mushaf-images repository
(`code/generate_data.py` and `code/generate_verse_data.py`).

The scripts' pure computational cores are embedded as Lean definitions:

* `group_and_sort` — clustering detected points into text rows and ordering
  them right-to-left, top-to-bottom.  The Python script sorts with the
  (stable) built-in sort; here the stable `List.insertionSort` plays that
  role, with the same comparison keys.
* `normalize_coordinates`, `round4` — pixel-to-normalized coordinate
  conversion; `round(v, 4)` is embedded as exact decimal rounding with
  ties to even on rationals.
* `get_verse_highlight_rows`, `verse_boxes_from_app_logic` — the highlight
  geometry engine; its two `while` loops become the well-founded recursive
  `stepRows`.
* `calibrate`, `processPage`, `processPageVerse` — the per-page driver
  logic of the two scripts' `main` functions, with the image-dependent
  detectors (`detect_ayas_template`, `detect_ayas_hough`) abstracted as
  function parameters, since their output depends on raster input.

Floating point values of the scripts are embedded as rationals.
-/

namespace Mushaf

/-- A candidate marker point `(x, y)`, embedded with rational coordinates. -/
abbrev Point : Type := ℚ × ℚ

/-- The stable ascending sort by vertical coordinate, embedding
`sorted(points, key=lambda p: p[1])` in `group_and_sort`. -/
def sortByY (points : List Point) : List Point :=
  List.insertionSort (fun a b => a.2 ≤ b.2) points

/-- The scanning loop of `group_and_sort`: walk the vertically sorted points,
appending to the current row group while the point's vertical coordinate is
within `group_y_threshold` of the group's first point, and starting a new
group otherwise; the final group is appended when the scan ends. -/
def groupLoop (group_y_threshold : ℚ) :
    List Point → List (List Point) → List Point → List (List Point)
  | [], groups, current_group => groups ++ [current_group]
  | point :: rest, groups, current_group =>
    match current_group with
    | [] => groupLoop group_y_threshold rest groups [point]
    | a :: _ =>
      if |point.2 - a.2| ≤ group_y_threshold then
        groupLoop group_y_threshold rest groups (current_group ++ [point])
      else
        groupLoop group_y_threshold rest (groups ++ [current_group]) [point]

/-- The stable within-row sort `group.sort(key=lambda p: -p[0])`:
ascending by negated horizontal coordinate, i.e. right-to-left. -/
def sortRowRTL (group : List Point) : List Point :=
  List.insertionSort (fun a b => -a.1 ≤ -b.1) group

/-- The row groups built by `group_and_sort`, after within-row sorting. -/
def sortedGroups (points : List Point) (group_y_threshold : ℚ) :
    List (List Point) :=
  (groupLoop group_y_threshold (sortByY points) [] []).map sortRowRTL

/-- `group_and_sort` from `generate_data.py` / `generate_verse_data.py`:
group points into rows by vertical coordinate, sort each row right-to-left,
and concatenate the rows. -/
def group_and_sort (points : List Point) (group_y_threshold : ℚ) :
    List Point :=
  (sortedGroups points group_y_threshold).flatten

/-- Round a rational to the nearest integer with ties to even, the rounding
behaviour of the scripts' `round`. -/
def roundHalfEven (q : ℚ) : ℤ :=
  if q - ⌊q⌋ < 1/2 then ⌊q⌋
  else if 1/2 < q - ⌊q⌋ then ⌊q⌋ + 1
  else if ⌊q⌋ % 2 = 0 then ⌊q⌋ else ⌊q⌋ + 1

/-- `round(value, 4)`: round to four decimal digits. -/
def round4 (q : ℚ) : ℚ :=
  (roundHalfEven (q * 10000) : ℚ) / 10000

/-- `normalize_coordinates` from both scripts: convert raw pixel coordinates
(top-left of the matched template) to normalized center coordinates, using
the page class's template offset and page dimensions. -/
def normalize_coordinates (page : ℕ) (x y : ℚ) : ℚ × ℚ :=
  if page ≤ 2 then
    (round4 ((x + 26) / 486), round4 ((y + 26) / 738))
  else
    (round4 ((x + 21) / 645), round4 ((y + 21) / 1000))

/-- `LINE_HEIGHT` from `generate_verse_data.py`. -/
def LINE_HEIGHT : ℚ := 0.055

/-- `TOP_FIRST_LINE_Y = LINE_HEIGHT / 2`. -/
def TOP_FIRST_LINE_Y : ℚ := LINE_HEIGHT / 2

/-- `LEFT_EDGE` from `generate_verse_data.py`. -/
def LEFT_EDGE : ℚ := 0.05

/-- `RIGHT_EDGE` from `generate_verse_data.py`. -/
def RIGHT_EDGE : ℚ := 0.95

/-- One row of `data.csv`: `(surah, verse_num, page, x, y)`, where `(x, y)`
is the verse-end marker in normalized coordinates. -/
structure MarkerRow where
  surah : ℕ
  verse_num : ℕ
  page : ℕ
  x : ℚ
  y : ℚ
  deriving DecidableEq, Inhabited

/-- The full-width row stepping loop shared by the two multi-line branches of
`get_verse_highlight_rows`: starting at `current_y`, emit rows spanning
`LEFT_EDGE` to `RIGHT_EDGE` and step down by `LINE_HEIGHT`, while
`current_y < y - LINE_HEIGHT / 2`. -/
def stepRows (y current_y : ℚ) : List (ℚ × ℚ × ℚ) :=
  if h : current_y < y - LINE_HEIGHT / 2 then
    (current_y, LEFT_EDGE, RIGHT_EDGE) :: stepRows y (current_y + LINE_HEIGHT)
  else []
termination_by (⌈(y - LINE_HEIGHT / 2 - current_y) / LINE_HEIGHT⌉).toNat
decreasing_by
  have hLH : (0 : ℚ) < LINE_HEIGHT := by norm_num [LINE_HEIGHT]
  have h1 : (0 : ℚ) < (y - LINE_HEIGHT / 2 - current_y) / LINE_HEIGHT :=
    div_pos (by linarith) hLH
  have h2 : (1 : ℤ) ≤ ⌈(y - LINE_HEIGHT / 2 - current_y) / LINE_HEIGHT⌉ :=
    Int.one_le_ceil_iff.mpr h1
  have h4 : (y - LINE_HEIGHT / 2 - (current_y + LINE_HEIGHT)) / LINE_HEIGHT
      = (y - LINE_HEIGHT / 2 - current_y) / LINE_HEIGHT + ((-1 : ℤ) : ℚ) := by
    push_cast
    field_simp
    ring
  have h3 : ⌈(y - LINE_HEIGHT / 2 - (current_y + LINE_HEIGHT)) / LINE_HEIGHT⌉
      = ⌈(y - LINE_HEIGHT / 2 - current_y) / LINE_HEIGHT⌉ - 1 := by
    rw [h4, Int.ceil_add_int]
    omega
  omega

/-- A fuel-indexed operational version of the stepping loop: `none` means the
fuel ran out before the loop guard became false. -/
def stepRowsFuel : ℕ → ℚ → ℚ → Option (List (ℚ × ℚ × ℚ))
  | 0, y, current_y =>
    if current_y < y - LINE_HEIGHT / 2 then none else some []
  | fuel + 1, y, current_y =>
    if current_y < y - LINE_HEIGHT / 2 then
      (stepRowsFuel fuel y (current_y + LINE_HEIGHT)).map
        (fun rows => (current_y, LEFT_EDGE, RIGHT_EDGE) :: rows)
    else some []

/-- The first-verse-on-page branch of `get_verse_highlight_rows`: single row
when the marker sits on the first line, otherwise quarter-line-offset
full-width rows followed by the final row at the verse's own line. -/
def firstVerseRows (v : MarkerRow) : List (ℚ × ℚ × ℚ) :=
  if v.y ≤ TOP_FIRST_LINE_Y + LINE_HEIGHT / 2 then
    [(v.y, v.x, RIGHT_EDGE)]
  else
    stepRows v.y (TOP_FIRST_LINE_Y + LINE_HEIGHT / 4) ++ [(v.y, v.x, RIGHT_EDGE)]

/-- `get_verse_highlight_rows` from `generate_verse_data.py`: the list of
`(y_center, start_x, end_x)` rows for the verse at `verse_index` within its
page's marker rows. -/
def get_verse_highlight_rows (page_data : List MarkerRow) (verse_index : ℤ) :
    List (ℚ × ℚ × ℚ) :=
  if verse_index < 0 ∨ (page_data.length : ℤ) ≤ verse_index then []
  else
    let v := page_data.getD verse_index.toNat default
    let prev_verse : Option MarkerRow :=
      if 0 < verse_index then some (page_data.getD (verse_index.toNat - 1) default)
      else none
    match prev_verse with
    | none => firstVerseRows v
    | some pv =>
      if pv.page ≠ v.page then firstVerseRows v
      else if |pv.y - v.y| < LINE_HEIGHT then [(v.y, v.x, pv.x)]
      else
        (pv.y, LEFT_EDGE, pv.x) ::
          (stepRows v.y (pv.y + LINE_HEIGHT) ++ [(v.y, v.x, RIGHT_EDGE)])

/-- One row of `data_verse.csv`. -/
structure Segment where
  surah : ℕ
  verse_num : ℕ
  page : ℕ
  segment : ℕ
  x_start : ℚ
  y_start : ℚ
  x_end : ℚ
  y_end : ℚ
  deriving DecidableEq, Inhabited

/-- Clamp to the unit interval: `max(0, min(1, v))`. -/
def clamp01 (v : ℚ) : ℚ := max 0 (min 1 v)

/-- The segment built from one highlight row inside
`verse_boxes_from_app_logic`: expand the row to a rectangle of height
`LINE_HEIGHT` centered on the row's `y`, order the horizontal bounds with
min/max, clamp everything to `[0, 1]` and round to four decimals. -/
def rowToSegment (surah verse_num page seg_idx : ℕ) (row : ℚ × ℚ × ℚ) :
    Segment :=
  let y_lo := row.1 - LINE_HEIGHT / 2
  let y_hi := row.1 + LINE_HEIGHT / 2
  let x_lo := min row.2.1 row.2.2
  let x_hi := max row.2.1 row.2.2
  { surah := surah, verse_num := verse_num, page := page, segment := seg_idx,
    x_start := round4 (clamp01 x_lo), y_start := round4 (clamp01 y_lo),
    x_end := round4 (clamp01 x_hi), y_end := round4 (clamp01 y_hi) }

/-- The insertion-ordered `by_page` grouping at the start of
`verse_boxes_from_app_logic`, embedding the Python dict that preserves key
insertion order. -/
def groupByPage (rows : List MarkerRow) : List (ℕ × List MarkerRow) :=
  rows.foldl
    (fun by_page r =>
      if by_page.any (fun e => e.1 == r.page) then
        by_page.map (fun e => if e.1 = r.page then (e.1, e.2 ++ [r]) else e)
      else by_page ++ [(r.page, [r])])
    []

/-- `verse_boxes_from_app_logic` from `generate_verse_data.py`: group the
marker rows by page and emit one `Segment` per highlight row of each verse. -/
def verse_boxes_from_app_logic (rows : List MarkerRow) : List Segment :=
  (groupByPage rows).flatMap (fun pg =>
    (List.range pg.2.length).flatMap (fun verse_index =>
      let v := pg.2.getD verse_index default
      (get_verse_highlight_rows pg.2 (verse_index : ℤ)).enum.map
        (fun e => rowToSegment v.surah v.verse_num pg.1 e.1 e.2)))

/-- The threshold sweep list `[i/1000 for i in range(200, 500, 5)]`. -/
def thresholds : List ℚ :=
  (List.range' 200 60 5).map (fun i => (i : ℚ) / 1000)

/-- `abs(len(c) - expected_count)` for a candidate coordinate list. -/
def countDiff (c : List Point) (expected_count : ℕ) : ℕ :=
  ((c.length : ℤ) - (expected_count : ℤ)).natAbs

/-- The threshold-sweep loop of both scripts' `main`: keep the candidate with
the smallest count difference, short-circuiting on the first exact match. -/
def sweep (detect : ℚ → List Point) (expected_count : ℕ) :
    List ℚ → List Point × ℕ → List Point × ℕ
  | [], best => best
  | t :: ts, best =>
    let c := detect t
    let d := countDiff c expected_count
    if d < best.2 then
      if d = 0 then (c, d) else sweep detect expected_count ts (c, d)
    else sweep detect expected_count ts best

/-- The HoughCircles fallback loop: return the first candidate whose length
matches the expected count exactly. -/
def houghFallback (hough : ℕ → List Point) (expected_count : ℕ) :
    List ℕ → Option (List Point)
  | [] => none
  | p2 :: ps =>
    if (hough p2).length = expected_count then some (hough p2)
    else houghFallback hough expected_count ps

/-- The page-class default correlation threshold:
`0.4 if page <= 2 else 0.2685`. -/
def defaultThresh (page : ℕ) : ℚ := if page ≤ 2 then 0.4 else 0.2685

/-- The per-page calibration chain shared by `generate_data.py` and
`generate_verse_data.py`: run the detector at the default threshold; on a
count mismatch sweep the threshold range keeping the best candidate; if still
mismatched try the HoughCircles fallback parameters `[30, 28, 25]`; report an
issue triple `(page, expected_count, detected_count)` when no exact match is
found.  The detectors are passed as functions because their output depends on
the page raster. -/
def calibrate (detect : ℚ → List Point) (hough : ℕ → List Point)
    (page expected_count : ℕ) : List Point × Option (ℕ × ℕ × ℕ) :=
  let coords := detect (defaultThresh page)
  if coords.length = expected_count then (coords, none)
  else
    let best := sweep detect expected_count thresholds
      (coords, countDiff coords expected_count)
    if best.2 = 0 then (best.1, none)
    else
      match houghFallback hough expected_count [30, 28, 25] with
      | some hcoords => (hcoords, none)
      | none => (best.1, some (page, expected_count, best.1.length))

/-- An output row of either script before CSV serialization:
`(surah, verse, page, x, y)`. -/
abbrev OutRow : Type := ℕ × ℕ × ℕ × ℚ × ℚ

/-- The `(x, y)` coordinate pair of an output row. -/
def rowXY (r : OutRow) : ℚ × ℚ := (r.2.2.2.1, r.2.2.2.2)

/-- The exact-match branches of `generate_data.py`'s `main`: zip the expected
verses with the detected raw coordinates. -/
def zipRows (page : ℕ) (expected_verses : List (ℕ × ℕ))
    (coords : List Point) : List OutRow :=
  (expected_verses.zip coords).map (fun e => (e.1.1, e.1.2, page, e.2.1, e.2.2))

/-- The unresolved-issue branch of `generate_data.py`'s `main`: positions with
a detected marker use it, later positions reuse the last detected marker, and
`(0, 0)` is used when nothing was detected at all. -/
def paddedRows (page : ℕ) (expected_verses : List (ℕ × ℕ))
    (best_coords : List Point) : List OutRow :=
  (List.range expected_verses.length).map (fun i =>
    let sv := expected_verses.getD i (0, 0)
    let c :=
      if i < best_coords.length then best_coords.getD i (0, 0)
      else (best_coords.getLast?).getD (0, 0)
    (sv.1, sv.2, page, c.1, c.2))

/-- The per-page body of `main` in `generate_data.py`: raw-coordinate output
rows plus the optional issue record. -/
def processPage (detect : ℚ → List Point) (hough : ℕ → List Point)
    (page : ℕ) (expected_verses : List (ℕ × ℕ)) :
    List OutRow × Option (ℕ × ℕ × ℕ) :=
  match calibrate detect hough page expected_verses.length with
  | (coords, none) => (zipRows page expected_verses coords, none)
  | (best_coords, some issue) =>
    (paddedRows page expected_verses best_coords, some issue)

/-- The CSV write step of `generate_data.py`: normalize every raw row. -/
def writeNormalized (rows : List OutRow) : List OutRow :=
  rows.map (fun r =>
    let n := normalize_coordinates r.2.2.1 r.2.2.2.1 r.2.2.2.2
    (r.1, r.2.1, r.2.2.1, n.1, n.2))

/-- The zip step of `generate_verse_data.py`'s `main`: pair expected verses
with detected coordinates and normalize inline. -/
def normZipRows (page : ℕ) (expected_verses : List (ℕ × ℕ))
    (coords : List Point) : List OutRow :=
  (expected_verses.zip coords).map (fun e =>
    let n := normalize_coordinates page e.2.1 e.2.2
    (e.1.1, e.1.2, page, n.1, n.2))

/-- The padding step of `generate_verse_data.py`'s `main`
(`for k in range(len(coords), expected_count)`): every position beyond the
detected markers gets the zero coordinate. -/
def zeroPadRows (page : ℕ) (expected_verses : List (ℕ × ℕ))
    (detected : ℕ) : List OutRow :=
  (List.range' detected (expected_verses.length - detected)).map (fun k =>
    let sv := expected_verses.getD k (0, 0)
    (sv.1, sv.2, page, (0 : ℚ), (0 : ℚ)))

/-- The per-page body of `main` in `generate_verse_data.py`: normalized
marker rows plus the optional issue record. -/
def processPageVerse (detect : ℚ → List Point) (hough : ℕ → List Point)
    (page : ℕ) (expected_verses : List (ℕ × ℕ)) :
    List OutRow × Option (ℕ × ℕ × ℕ) :=
  let r := calibrate detect hough page expected_verses.length
  (normZipRows page expected_verses r.1 ++
    zeroPadRows page expected_verses r.1.length, r.2)

lemma floor_le_roundHalfEven (q : ℚ) : ⌊q⌋ ≤ roundHalfEven q := by
  unfold roundHalfEven
  split_ifs <;> omega

lemma roundHalfEven_le_floor_add_one (q : ℚ) : roundHalfEven q ≤ ⌊q⌋ + 1 := by
  unfold roundHalfEven
  split_ifs <;> omega

lemma roundHalfEven_le_ceil (q : ℚ) : roundHalfEven q ≤ ⌈q⌉ := by
  unfold roundHalfEven
  split_ifs with h1 h2 h3
  · exact Int.floor_le_ceil q
  all_goals
  · have hlt : (⌊q⌋ : ℚ) < q := by linarith
    have hc : (⌊q⌋ : ℚ) < (⌈q⌉ : ℚ) := lt_of_lt_of_le hlt (Int.le_ceil q)
    have : ⌊q⌋ < ⌈q⌉ := by exact_mod_cast hc
    omega

lemma roundHalfEven_mono {q r : ℚ} (h : q ≤ r) :
    roundHalfEven q ≤ roundHalfEven r := by
  rcases lt_or_eq_of_le (Int.floor_le_floor h) with hf | hf
  · calc roundHalfEven q ≤ ⌊q⌋ + 1 := roundHalfEven_le_floor_add_one q
    _ ≤ ⌊r⌋ := by omega
    _ ≤ roundHalfEven r := floor_le_roundHalfEven r
  · have hq : (⌊q⌋ : ℚ) = (⌊r⌋ : ℚ) := by exact_mod_cast hf
    unfold roundHalfEven
    rw [hf] at *
    split_ifs <;> first | omega | (exfalso; linarith)

lemma round4_nonneg {q : ℚ} (h : 0 ≤ q) : 0 ≤ round4 q := by
  unfold round4
  have h1 : (0 : ℤ) ≤ ⌊q * 10000⌋ := Int.floor_nonneg.mpr (by positivity)
  have h2 : (0 : ℤ) ≤ roundHalfEven (q * 10000) :=
    le_trans h1 (floor_le_roundHalfEven _)
  positivity

lemma round4_le_one {q : ℚ} (h : q ≤ 1) : round4 q ≤ 1 := by
  unfold round4
  have h1 : roundHalfEven (q * 10000) ≤ ⌈q * 10000⌉ := roundHalfEven_le_ceil _
  have h2 : ⌈q * 10000⌉ ≤ 10000 := Int.ceil_le.mpr (by push_cast; linarith)
  have h3 : ((roundHalfEven (q * 10000) : ℚ)) ≤ 10000 := by exact_mod_cast le_trans h1 h2
  linarith

lemma round4_mono {q r : ℚ} (h : q ≤ r) : round4 q ≤ round4 r := by
  unfold round4
  have := roundHalfEven_mono (q := q * 10000) (r := r * 10000) (by linarith)
  have h2 : ((roundHalfEven (q * 10000) : ℚ)) ≤ ((roundHalfEven (r * 10000) : ℚ)) := by
    exact_mod_cast this
  linarith

lemma round4_exact {q : ℚ} {n : ℤ} (h : q * 10000 = (n : ℚ)) : round4 q = q := by
  unfold round4 roundHalfEven
  rw [h, Int.floor_intCast, sub_self, if_pos (by norm_num)]
  field_simp
  linarith

lemma roundHalfEven_eq_of_half_lt {q : ℚ} {n : ℤ} (h1 : ⌊q⌋ = n)
    (h2 : 1/2 < q - (n : ℚ)) : roundHalfEven q = n + 1 := by
  unfold roundHalfEven
  rw [h1, if_neg (by linarith), if_pos h2]

lemma stepRows_of_lt {y c : ℚ} (h : c < y - LINE_HEIGHT / 2) :
    stepRows y c = (c, LEFT_EDGE, RIGHT_EDGE) :: stepRows y (c + LINE_HEIGHT) := by
  rw [stepRows, dif_pos h]

lemma stepRows_of_not_lt {y c : ℚ} (h : ¬ c < y - LINE_HEIGHT / 2) :
    stepRows y c = [] := by
  rw [stepRows, dif_neg h]

/-- Claim C4: for two verses on the same page with previous marker
`(x = 0.6, y = 0.5)` and current marker `(x = 0.3, y = 0.5)`,
`get_verse_highlight_rows` emits exactly the single row `(0.5, 0.3, 0.6)`,
and the geometry engine turns it into exactly one segment with horizontal
bounds `[0.3, 0.6]` and vertical bounds `[0.4725, 0.5275]`. -/
theorem C4_single_line_segment :
    get_verse_highlight_rows
        [⟨1, 1, 3, 0.6, 0.5⟩, ⟨1, 2, 3, 0.3, 0.5⟩] 1 = [(0.5, 0.3, 0.6)] ∧
    (get_verse_highlight_rows
        [⟨1, 1, 3, 0.6, 0.5⟩, ⟨1, 2, 3, 0.3, 0.5⟩] 1).enum.map
        (fun e => rowToSegment 1 2 3 e.1 e.2) =
      [⟨1, 2, 3, 0, 0.3, 0.4725, 0.6, 0.5275⟩] := by
  have hrows : get_verse_highlight_rows
      [⟨1, 1, 3, 0.6, 0.5⟩, ⟨1, 2, 3, 0.3, 0.5⟩] 1 =
      [((1 : ℚ)/2, (3 : ℚ)/10, (3 : ℚ)/5)] := by
    simp only [get_verse_highlight_rows]
    norm_num [LINE_HEIGHT]
  have r1 : round4 ((3 : ℚ)/10) = 3/10 := round4_exact (n := 3000) (by norm_num)
  have r2 : round4 ((3 : ℚ)/5) = 3/5 := round4_exact (n := 6000) (by norm_num)
  have r3 : round4 ((189 : ℚ)/400) = 189/400 := round4_exact (n := 4725) (by norm_num)
  have r4 : round4 ((211 : ℚ)/400) = 211/400 := round4_exact (n := 5275) (by norm_num)
  rw [hrows]
  refine ⟨by norm_num, ?_⟩
  simp only [List.enum, List.enumFrom, List.map, rowToSegment]
  norm_num [clamp01, min_def, max_def, LINE_HEIGHT, r1, r2, r3, r4]

/-- Claim C2 counterexample: with the previous marker at `(0.7, 0.3)` and the
current marker at `(0.5, 0.41)`, `get_verse_highlight_rows` emits three rows,
not the two rows the claim states: an intermediate full-width row at
`y = 0.355` appears because `0.355 < 0.41 - 0.055 / 2 = 0.3825`. -/
theorem C2_counterexample :
    (get_verse_highlight_rows
        [⟨1, 1, 3, 0.7, 0.3⟩, ⟨1, 2, 3, 0.5, 0.41⟩] 1).length = 3 ∧
    ¬ (get_verse_highlight_rows
        [⟨1, 1, 3, 0.7, 0.3⟩, ⟨1, 2, 3, 0.5, 0.41⟩] 1).length = 2 := by
  have h1 : stepRows ((41 : ℚ)/100) ((71 : ℚ)/200) =
      [(((71 : ℚ)/200), LEFT_EDGE, RIGHT_EDGE)] := by
    rw [stepRows_of_lt (by norm_num [LINE_HEIGHT]),
      stepRows_of_not_lt (by norm_num [LINE_HEIGHT])]
  have habs : |(11 : ℚ)/100| = 11/100 := abs_of_nonneg (by norm_num)
  simp only [get_verse_highlight_rows]
  norm_num [LINE_HEIGHT, h1, habs]

/-- Claim C2 amended: for a non-first verse with previous marker
`(x = 0.7, y = 0.3)` and current marker `(x, y = 0.41)`,
`get_verse_highlight_rows` emits exactly three rows:
`(0.3, LEFT_EDGE, 0.7)`, an intermediate full-width row
`(0.355, LEFT_EDGE, RIGHT_EDGE)`, and `(0.41, x, RIGHT_EDGE)`. -/
theorem C2_amended (s1 v1 s2 v2 page : ℕ) (x : ℚ) :
    get_verse_highlight_rows
        [⟨s1, v1, page, 0.7, 0.3⟩, ⟨s2, v2, page, x, 0.41⟩] 1 =
      [(0.3, LEFT_EDGE, 0.7), (0.355, LEFT_EDGE, RIGHT_EDGE),
        (0.41, x, RIGHT_EDGE)] := by
  have h1 : stepRows ((41 : ℚ)/100) ((71 : ℚ)/200) =
      [(((71 : ℚ)/200), LEFT_EDGE, RIGHT_EDGE)] := by
    rw [stepRows_of_lt (by norm_num [LINE_HEIGHT]),
      stepRows_of_not_lt (by norm_num [LINE_HEIGHT])]
  have habs : |(11 : ℚ)/100| = 11/100 := abs_of_nonneg (by norm_num)
  simp only [get_verse_highlight_rows]
  norm_num [LINE_HEIGHT, h1, habs]

lemma firstVerseRows_ne_nil (v : MarkerRow) : firstVerseRows v ≠ [] := by
  unfold firstVerseRows
  split_ifs <;> simp

/-- Claim C10: `get_verse_highlight_rows` returns the empty list exactly when
`verse_index` is negative or at least the page's row count, and returns at
least one row for every in-range index. -/
theorem C10_index_range (page_data : List MarkerRow) (verse_index : ℤ) :
    ((verse_index < 0 ∨ (page_data.length : ℤ) ≤ verse_index) →
      get_verse_highlight_rows page_data verse_index = []) ∧
    (0 ≤ verse_index → verse_index < (page_data.length : ℤ) →
      get_verse_highlight_rows page_data verse_index ≠ []) := by
  constructor
  · intro h
    simp only [get_verse_highlight_rows]
    rw [if_pos h]
  · intro h1 h2
    simp only [get_verse_highlight_rows]
    rw [if_neg (by omega)]
    by_cases hp : 0 < verse_index
    · rw [if_pos hp]
      dsimp only
      split_ifs <;> first | exact firstVerseRows_ne_nil _ | simp
    · rw [if_neg hp]
      exact firstVerseRows_ne_nil _

/-- Claim C10 witness: a concrete one-row page where index 1 is out of range
and index 0 yields a nonempty row list. -/
theorem C10_index_range_witness :
    get_verse_highlight_rows [⟨1, 1, 1, 0.5, 0.0275⟩] 1 = [] ∧
    get_verse_highlight_rows [⟨1, 1, 1, 0.5, 0.0275⟩] 0 ≠ [] :=
  ⟨(C10_index_range [⟨1, 1, 1, 0.5, 0.0275⟩] 1).1 (Or.inr (by decide)),
    (C10_index_range [⟨1, 1, 1, 0.5, 0.0275⟩] 0).2 (by decide) (by decide)⟩

lemma ceil_measure_pos {y c : ℚ} (hg : c < y - LINE_HEIGHT / 2) :
    1 ≤ ⌈(y - LINE_HEIGHT / 2 - c) / LINE_HEIGHT⌉ :=
  Int.one_le_ceil_iff.mpr (div_pos (by linarith) (by norm_num [LINE_HEIGHT]))

lemma ceil_measure_step (y c : ℚ) :
    ⌈(y - LINE_HEIGHT / 2 - (c + LINE_HEIGHT)) / LINE_HEIGHT⌉ =
      ⌈(y - LINE_HEIGHT / 2 - c) / LINE_HEIGHT⌉ - 1 := by
  have hLH : (LINE_HEIGHT : ℚ) ≠ 0 := by norm_num [LINE_HEIGHT]
  have h4 : (y - LINE_HEIGHT / 2 - (c + LINE_HEIGHT)) / LINE_HEIGHT
      = (y - LINE_HEIGHT / 2 - c) / LINE_HEIGHT + ((-1 : ℤ) : ℚ) := by
    push_cast
    field_simp
    ring
  rw [h4, Int.ceil_add_int]
  omega

lemma stepRowsFuel_correct :
    ∀ (n : ℕ) (y c : ℚ),
      (⌈(y - LINE_HEIGHT / 2 - c) / LINE_HEIGHT⌉).toNat ≤ n →
      stepRowsFuel n y c = some (stepRows y c) := by
  intro n
  induction n with
  | zero =>
    intro y c hm
    by_cases hg : c < y - LINE_HEIGHT / 2
    · exact absurd hm (by have := ceil_measure_pos hg; omega)
    · simp only [stepRowsFuel, if_neg hg, stepRows_of_not_lt hg]
  | succ n ih =>
    intro y c hm
    by_cases hg : c < y - LINE_HEIGHT / 2
    · have hm' : (⌈(y - LINE_HEIGHT / 2 - (c + LINE_HEIGHT)) / LINE_HEIGHT⌉).toNat ≤ n := by
        have := ceil_measure_step y c
        have := ceil_measure_pos hg
        omega
      simp only [stepRowsFuel, if_pos hg, ih y (c + LINE_HEIGHT) hm',
        stepRows_of_lt hg]
      rfl
    · simp only [stepRowsFuel, if_neg hg, stepRows_of_not_lt hg]

/-- Claim C9: the stepping loops of the geometry engine terminate for every
rational input: for all target `y` and starting cursor, some finite fuel makes
the operational fuel-indexed loop return (with the rows of `stepRows`), since
the cursor increases by the fixed positive `LINE_HEIGHT` toward the bound
`y - LINE_HEIGHT / 2`. -/
theorem C9_stepping_terminates (y current_y : ℚ) :
    ∃ fuel, stepRowsFuel fuel y current_y = some (stepRows y current_y) :=
  ⟨(⌈(y - LINE_HEIGHT / 2 - current_y) / LINE_HEIGHT⌉).toNat,
    stepRowsFuel_correct _ y current_y le_rfl⟩

/-- Claim C5: for a standard-class page (`page > 2`),
`normalize_coordinates` maps raw `(0, 0)` to exactly `(0.0326, 0.0210)`, and
for every raw template position inside the page's pixel bounds both
normalized results lie in `[0, 1]`. -/
theorem C5_normalize_standard (page : ℕ) (x y : ℚ) (hpage : 2 < page) :
    normalize_coordinates page 0 0 = (0.0326, 0.0210) ∧
    (0 ≤ x → x + 42 ≤ 645 → 0 ≤ y → y + 42 ≤ 1000 →
      0 ≤ (normalize_coordinates page x y).1 ∧
      (normalize_coordinates page x y).1 ≤ 1 ∧
      0 ≤ (normalize_coordinates page x y).2 ∧
      (normalize_coordinates page x y).2 ≤ 1) := by
  have hnp : ¬ page ≤ 2 := by omega
  constructor
  · simp only [normalize_coordinates, if_neg hnp]
    have hf : ⌊(7 : ℚ)/215 * 10000⌋ = 325 :=
      Int.floor_eq_iff.mpr ⟨by norm_num, by norm_num⟩
    have hx : round4 ((7 : ℚ)/215) = 163/5000 := by
      unfold round4
      rw [roundHalfEven_eq_of_half_lt hf (by push_cast; norm_num)]
      norm_num
    have hy : round4 ((21 : ℚ)/1000) = 21/1000 :=
      round4_exact (n := 210) (by norm_num)
    norm_num [hx, hy]
  · intro hx0 hx1 hy0 hy1
    simp only [normalize_coordinates, if_neg hnp]
    refine ⟨round4_nonneg (by positivity), round4_le_one ?_,
      round4_nonneg (by positivity), round4_le_one ?_⟩
    · rw [div_le_one (by norm_num)]
      linarith
    · rw [div_le_one (by norm_num)]
      linarith

/-- Claim C5 witness: the bounds instantiated at page 3 and raw `(0, 0)`. -/
theorem C5_normalize_standard_witness :
    normalize_coordinates 3 0 0 = (0.0326, 0.0210) ∧
    0 ≤ (normalize_coordinates 3 0 0).1 ∧
    (normalize_coordinates 3 0 0).1 ≤ 1 ∧
    0 ≤ (normalize_coordinates 3 0 0).2 ∧
    (normalize_coordinates 3 0 0).2 ≤ 1 := by
  have h := C5_normalize_standard 3 0 0 (by norm_num)
  have h2 := h.2 (by norm_num) (by norm_num) (by norm_num) (by norm_num)
  exact ⟨h.1, h2.1, h2.2.1, h2.2.2.1, h2.2.2.2⟩

lemma sweep_countDiff (detect : ℚ → List Point) (ec : ℕ) :
    ∀ (ts : List ℚ) (best : List Point × ℕ), best.2 = countDiff best.1 ec →
      (sweep detect ec ts best).2 = countDiff (sweep detect ec ts best).1 ec := by
  intro ts
  induction ts with
  | nil =>
    intro best h
    simpa [sweep] using h
  | cons t ts ih =>
    intro best h
    simp only [sweep]
    split_ifs with h1 h2
    · rfl
    · exact ih _ rfl
    · exact ih _ h

lemma houghFallback_length (hough : ℕ → List Point) (ec : ℕ) :
    ∀ (ps : List ℕ) (h : List Point),
      houghFallback hough ec ps = some h → h.length = ec := by
  intro ps
  induction ps with
  | nil =>
    intro h hh
    simp [houghFallback] at hh
  | cons p ps ih =>
    intro h hh
    simp only [houghFallback] at hh
    split_ifs at hh with h1
    · cases hh
      exact h1
    · exact ih h hh

lemma calibrate_spec (detect : ℚ → List Point) (hough : ℕ → List Point)
    (page ec : ℕ) :
    ((calibrate detect hough page ec).2 = none →
      (calibrate detect hough page ec).1.length = ec) ∧
    (∀ pg e g, (calibrate detect hough page ec).2 = some (pg, e, g) →
      pg = page ∧ e = ec ∧ g = (calibrate detect hough page ec).1.length) := by
  simp only [calibrate]
  split_ifs with h1 h2
  · exact ⟨fun _ => h1, by simp⟩
  · have hs := sweep_countDiff detect ec thresholds
      (detect (defaultThresh page), countDiff (detect (defaultThresh page)) ec) rfl
    constructor
    · intro _
      have hz : countDiff (sweep detect ec thresholds
          (detect (defaultThresh page),
            countDiff (detect (defaultThresh page)) ec)).1 ec = 0 := by
        rw [← hs]
        exact h2
      have h0 : ∀ c : List Point, countDiff c ec = 0 → c.length = ec := by
        intro c h
        simp only [countDiff] at h
        omega
      dsimp only
      exact h0 _ hz
    · simp
  · cases hhf : houghFallback hough ec [30, 28, 25] with
    | some h =>
      simp only [hhf]
      exact ⟨fun _ => houghFallback_length hough ec _ h hhf, by simp⟩
    | none =>
      simp only [hhf]
      refine ⟨by simp, ?_⟩
      intro pg e g hg
      simp only [Option.some.injEq, Prod.mk.injEq] at hg
      exact ⟨hg.1.symm, hg.2.1.symm, hg.2.2.symm⟩

/-- Claim C1: for every page and authoritative verse list, the number of
output marker rows emitted for that page equals the verse list's length, in
every control-flow outcome of both scripts (exact match at the default
threshold, exact match after the sweep, exact match via the Hough fallback,
and the unresolved-issue branch). -/
theorem C1_row_counts (detect : ℚ → List Point) (hough : ℕ → List Point)
    (page : ℕ) (expected_verses : List (ℕ × ℕ)) :
    (processPage detect hough page expected_verses).1.length =
      expected_verses.length ∧
    (processPageVerse detect hough page expected_verses).1.length =
      expected_verses.length := by
  have hspec := calibrate_spec detect hough page expected_verses.length
  constructor
  · unfold processPage
    cases hc : calibrate detect hough page expected_verses.length with
    | mk coords iss =>
      cases iss with
      | none =>
        have hlen : coords.length = expected_verses.length := by
          have h := hspec.1
          rw [hc] at h
          exact h rfl
        simp [zipRows, List.length_zip, hlen]
      | some i =>
        simp [paddedRows]
  · unfold processPageVerse
    simp only [List.length_append, normZipRows, zeroPadRows, List.length_map,
      List.length_zip, List.length_range']
    rcases Nat.le_total expected_verses.length
        (calibrate detect hough page expected_verses.length).1.length with h | h
    · simp [Nat.min_eq_left h]
      omega
    · simp [Nat.min_eq_right h]
      omega

/-- Claim C6: when the detector already matches the expected count at the
page class's default threshold, `processPage` emits those coordinates
directly, and its result does not depend on the detector's behaviour at any
other threshold nor on the Hough fallback detector. -/
theorem C6_default_shortcut (detect detect' : ℚ → List Point)
    (hough hough' : ℕ → List Point) (page : ℕ)
    (expected_verses : List (ℕ × ℕ))
    (hsame : detect (defaultThresh page) = detect' (defaultThresh page))
    (hlen : (detect (defaultThresh page)).length = expected_verses.length) :
    processPage detect hough page expected_verses =
      (zipRows page expected_verses (detect (defaultThresh page)), none) ∧
    processPage detect' hough' page expected_verses =
      processPage detect hough page expected_verses := by
  have hc : calibrate detect hough page expected_verses.length =
      (detect (defaultThresh page), none) := by
    simp only [calibrate]
    rw [if_pos hlen]
  have hc' : calibrate detect' hough' page expected_verses.length =
      (detect' (defaultThresh page), none) := by
    simp only [calibrate]
    rw [if_pos (by rw [← hsame]; exact hlen)]
  constructor
  · simp only [processPage, hc]
  · simp only [processPage, hc, hc', ← hsame]

/-- Claim C6 witness: a detector that returns one point at every threshold,
with a one-verse page. -/
theorem C6_default_shortcut_witness :
    processPage (fun _ => [((5 : ℚ), 6)]) (fun _ => []) 3 [(1, 1)] =
      (zipRows 3 [(1, 1)] [((5 : ℚ), 6)], none) ∧
    processPage (fun _ => [((5 : ℚ), 6)]) (fun _ => [(7, 7)]) 3 [(1, 1)] =
      processPage (fun _ => [((5 : ℚ), 6)]) (fun _ => []) 3 [(1, 1)] := by
  have h := C6_default_shortcut (fun _ => [((5 : ℚ), 6)]) (fun _ => [((5 : ℚ), 6)])
    (fun _ => []) (fun _ => [(7, 7)]) 3 [(1, 1)] rfl (by simp)
  exact ⟨h.1, h.2⟩

lemma roundHalfEven_eq_of_lt_half {q : ℚ} {n : ℤ} (h1 : ⌊q⌋ = n)
    (h2 : q - (n : ℚ) < 1/2) : roundHalfEven q = n := by
  unfold roundHalfEven
  rw [h1, if_pos h2]

lemma sweep_no_improvement (detect : ℚ → List Point) (ec : ℕ) :
    ∀ (ts : List ℚ) (best : List Point × ℕ),
      (∀ t ∈ ts, ¬ countDiff (detect t) ec < best.2) →
      sweep detect ec ts best = best := by
  intro ts
  induction ts with
  | nil =>
    intro best _
    rfl
  | cons t ts ih =>
    intro best h
    simp only [sweep]
    rw [if_neg (h t (by simp))]
    exact ih best (fun u hu => h u (by simp [hu]))

lemma calibrate_example :
    calibrate (fun _ => [((5 : ℚ), 5)]) (fun _ => []) 3 2 =
      ([((5 : ℚ), 5)], some (3, 2, 1)) := by
  have hcd : countDiff [((5 : ℚ), 5)] 2 = 1 := by simp [countDiff]
  have hsw : sweep (fun _ => [((5 : ℚ), 5)]) 2 thresholds
      ([((5 : ℚ), 5)], countDiff [((5 : ℚ), 5)] 2) =
      ([((5 : ℚ), 5)], countDiff [((5 : ℚ), 5)] 2) := by
    apply sweep_no_improvement
    intro t _
    show ¬ countDiff [((5 : ℚ), 5)] 2 < countDiff [((5 : ℚ), 5)] 2
    omega
  have hhf : houghFallback (fun _ => ([] : List Point)) 2 [30, 28, 25] = none := by
    simp [houghFallback]
  simp only [calibrate]
  rw [if_neg (by norm_num), hsw, hcd, if_neg (by norm_num), hhf]
  simp

/-- Claim C7 counterexample: with a detector that finds one marker on a page
expecting two verses, `generate_verse_data.py` records the issue but pads the
missing position with the zero coordinate `(0, 0)` even though a marker was
detected: the padded row does not carry the last detected marker's
coordinate, whose emitted row is nonzero. -/
theorem C7_counterexample :
    (processPageVerse (fun _ => [((5 : ℚ), 5)]) (fun _ => []) 3
        [(1, 1), (1, 2)]).2 = some (3, 2, 1) ∧
    rowXY ((processPageVerse (fun _ => [((5 : ℚ), 5)]) (fun _ => []) 3
        [(1, 1), (1, 2)]).1.getD 1 (0, 0, 0, 0, 0)) = (0, 0) ∧
    rowXY ((processPageVerse (fun _ => [((5 : ℚ), 5)]) (fun _ => []) 3
        [(1, 1), (1, 2)]).1.getD 0 (0, 0, 0, 0, 0)) ≠ (0, 0) := by
  have hf : ⌊(26 : ℚ)/645 * 10000⌋ = 403 :=
    Int.floor_eq_iff.mpr ⟨by norm_num, by norm_num⟩
  have hx : round4 ((26 : ℚ)/645) = 403/10000 := by
    unfold round4
    rw [roundHalfEven_eq_of_lt_half hf (by push_cast; norm_num)]
    norm_num
  have hy : round4 ((13 : ℚ)/500) = 13/500 :=
    round4_exact (n := 260) (by norm_num)
  have hlen2 : List.length [((1 : ℕ), (1 : ℕ)), (1, 2)] = 2 := rfl
  refine ⟨?_, ?_, ?_⟩
  · simp only [processPageVerse, hlen2, calibrate_example]
  · simp only [processPageVerse, hlen2, calibrate_example]
    norm_num [normZipRows, zeroPadRows, rowXY, List.range']
  · simp only [processPageVerse, hlen2, calibrate_example]
    norm_num [normZipRows, zeroPadRows, rowXY, normalize_coordinates, hx, hy]

lemma paddedRows_getD (page : ℕ) (evs : List (ℕ × ℕ)) (bc : List Point)
    {i : ℕ} (hi : i < evs.length) :
    (paddedRows page evs bc).getD i (0, 0, 0, 0, 0) =
      ((evs.getD i (0, 0)).1, (evs.getD i (0, 0)).2, page,
        (if i < bc.length then bc.getD i (0, 0) else (bc.getLast?).getD (0, 0)).1,
        (if i < bc.length then bc.getD i (0, 0) else (bc.getLast?).getD (0, 0)).2) := by
  unfold paddedRows
  rw [List.getD_eq_getElem?_getD, List.getElem?_map, List.getElem?_range hi]
  rfl

/-- Claim C7 amended: when calibration fails to reach the expected count, the
page is recorded as an issue; in `generate_data.py` every verse position
beyond the detected markers carries the last detected marker's coordinate
(or a zero coordinate if nothing was detected), while in
`generate_verse_data.py` every such position carries the zero coordinate
even when markers were detected. -/
theorem C7_amended (detect : ℚ → List Point) (hough : ℕ → List Point)
    (page : ℕ) (expected_verses : List (ℕ × ℕ)) (pg ec got i : ℕ)
    (hi : got ≤ i) (hilen : i < expected_verses.length) :
    ((processPage detect hough page expected_verses).2 = some (pg, ec, got) →
      rowXY ((processPage detect hough page expected_verses).1.getD i
          (0, 0, 0, 0, 0)) =
        (if got = 0 then ((0 : ℚ), (0 : ℚ))
          else rowXY ((processPage detect hough page expected_verses).1.getD
            (got - 1) (0, 0, 0, 0, 0)))) ∧
    ((processPageVerse detect hough page expected_verses).2 = some (pg, ec, got) →
      rowXY ((processPageVerse detect hough page expected_verses).1.getD i
          (0, 0, 0, 0, 0)) = (0, 0)) := by
  constructor
  · intro hiss
    unfold processPage at hiss ⊢
    cases hc : calibrate detect hough page expected_verses.length with
    | mk coords iss =>
      rw [hc] at hiss
      cases iss with
      | none => simp at hiss
      | some t =>
        dsimp only at hiss ⊢
        injection hiss with ht
        subst ht
        have hspec := (calibrate_spec detect hough page expected_verses.length).2
          pg ec got (by rw [hc])
        obtain ⟨hpg, hec, hgot⟩ := hspec
        rw [hc] at hgot
        dsimp only at hgot
        rw [paddedRows_getD page _ coords hilen]
        by_cases hg : got = 0
        · rw [if_pos hg]
          have hbc : coords = [] := List.length_eq_zero.mp (by omega)
          subst hbc
          simp [rowXY]
        · rw [if_neg hg]
          rw [paddedRows_getD page _ coords (by omega)]
          rw [if_neg (by omega), if_pos (by omega)]
          have hgd : coords.getD (got - 1) (0, 0) = (coords.getLast?).getD (0, 0) := by
            rw [List.getD_eq_getElem?_getD, List.getLast?_eq_getElem?, hgot]
          rw [hgd]
          rfl
  · intro hiss
    unfold processPageVerse at hiss ⊢
    dsimp only at hiss ⊢
    have hspec := (calibrate_spec detect hough page expected_verses.length).2
      pg ec got hiss
    obtain ⟨hpg, hec, hgot⟩ := hspec
    have hnlen : (normZipRows page expected_verses
        (calibrate detect hough page expected_verses.length).1).length = got := by
      simp only [normZipRows, List.length_map, List.length_zip, ← hgot]
      exact Nat.min_eq_right (by omega)
    rw [List.getD_append_right _ _ _ _ (by rw [hnlen]; omega), hnlen]
    unfold zeroPadRows
    rw [List.getD_eq_getElem?_getD, List.getElem?_map,
      List.getElem?_range' _ _ (by omega)]
    rfl

/-- Claim C7 amended witness: the one-detected-marker, two-verse page
instantiated concretely: `generate_data.py` repeats the last marker while
`generate_verse_data.py` pads with zero. -/
theorem C7_amended_witness :
    rowXY ((processPage (fun _ => [((5 : ℚ), 5)]) (fun _ => []) 3
        [(1, 1), (1, 2)]).1.getD 1 (0, 0, 0, 0, 0)) =
      (if (1 : ℕ) = 0 then ((0 : ℚ), (0 : ℚ))
        else rowXY ((processPage (fun _ => [((5 : ℚ), 5)]) (fun _ => []) 3
          [(1, 1), (1, 2)]).1.getD (1 - 1) (0, 0, 0, 0, 0))) ∧
    rowXY ((processPageVerse (fun _ => [((5 : ℚ), 5)]) (fun _ => []) 3
        [(1, 1), (1, 2)]).1.getD 1 (0, 0, 0, 0, 0)) = (0, 0) := by
  have h := C7_amended (fun _ => [((5 : ℚ), 5)]) (fun _ => []) 3
    [(1, 1), (1, 2)] 3 2 1 1 (by norm_num) (by norm_num)
  have hlen2 : List.length [((1 : ℕ), (1 : ℕ)), (1, 2)] = 2 := rfl
  refine ⟨h.1 ?_, h.2 ?_⟩
  · simp only [processPage, hlen2, calibrate_example]
  · simp only [processPageVerse, hlen2, calibrate_example]

lemma clamp01_mem (v : ℚ) : 0 ≤ clamp01 v ∧ clamp01 v ≤ 1 := by
  unfold clamp01
  exact ⟨le_max_left 0 _, max_le (by norm_num) (min_le_left 1 v)⟩

lemma clamp01_mono {a b : ℚ} (h : a ≤ b) : clamp01 a ≤ clamp01 b := by
  unfold clamp01
  exact max_le_max le_rfl (min_le_min le_rfl h)

lemma round4_clamp01_mem (v : ℚ) :
    0 ≤ round4 (clamp01 v) ∧ round4 (clamp01 v) ≤ 1 :=
  ⟨round4_nonneg (clamp01_mem v).1, round4_le_one (clamp01_mem v).2⟩

lemma rowToSegment_bounds (surah verse_num page seg_idx : ℕ) (row : ℚ × ℚ × ℚ) :
    0 ≤ (rowToSegment surah verse_num page seg_idx row).x_start ∧
    (rowToSegment surah verse_num page seg_idx row).x_start ≤ 1 ∧
    0 ≤ (rowToSegment surah verse_num page seg_idx row).y_start ∧
    (rowToSegment surah verse_num page seg_idx row).y_start ≤ 1 ∧
    0 ≤ (rowToSegment surah verse_num page seg_idx row).x_end ∧
    (rowToSegment surah verse_num page seg_idx row).x_end ≤ 1 ∧
    0 ≤ (rowToSegment surah verse_num page seg_idx row).y_end ∧
    (rowToSegment surah verse_num page seg_idx row).y_end ≤ 1 ∧
    (rowToSegment surah verse_num page seg_idx row).x_start ≤
      (rowToSegment surah verse_num page seg_idx row).x_end ∧
    (rowToSegment surah verse_num page seg_idx row).y_start ≤
      (rowToSegment surah verse_num page seg_idx row).y_end := by
  unfold rowToSegment
  dsimp only
  refine ⟨(round4_clamp01_mem _).1, (round4_clamp01_mem _).2,
    (round4_clamp01_mem _).1, (round4_clamp01_mem _).2,
    (round4_clamp01_mem _).1, (round4_clamp01_mem _).2,
    (round4_clamp01_mem _).1, (round4_clamp01_mem _).2, ?_, ?_⟩
  · exact round4_mono (clamp01_mono (min_le_max))
  · apply round4_mono
    apply clamp01_mono
    have : (0 : ℚ) < LINE_HEIGHT := by norm_num [LINE_HEIGHT]
    linarith

/-- Claim C8: every segment emitted by `verse_boxes_from_app_logic` has all
four coordinates in `[0, 1]` (clamped before recording) and satisfies
`x_start ≤ x_end` and `y_start ≤ y_end`, for every input marker sequence. -/
theorem C8_segment_bounds (rows : List MarkerRow) :
    ∀ seg ∈ verse_boxes_from_app_logic rows,
      0 ≤ seg.x_start ∧ seg.x_start ≤ 1 ∧
      0 ≤ seg.y_start ∧ seg.y_start ≤ 1 ∧
      0 ≤ seg.x_end ∧ seg.x_end ≤ 1 ∧
      0 ≤ seg.y_end ∧ seg.y_end ≤ 1 ∧
      seg.x_start ≤ seg.x_end ∧ seg.y_start ≤ seg.y_end := by
  intro seg hseg
  unfold verse_boxes_from_app_logic at hseg
  simp only [List.mem_flatMap, List.mem_map] at hseg
  obtain ⟨pg, -, vi, -, e, -, rfl⟩ := hseg
  exact rowToSegment_bounds _ _ _ _ _

/-- Claim C8 witness: a one-verse page whose single segment is computed
concretely and satisfies the bounds. -/
theorem C8_segment_bounds_witness :
    (⟨1, 1, 1, 0, 1/2, 0, 19/20, 11/200⟩ : Segment) ∈
      verse_boxes_from_app_logic [⟨1, 1, 1, 0.5, 0.0275⟩] ∧
    0 ≤ (⟨1, 1, 1, 0, 1/2, 0, 19/20, 11/200⟩ : Segment).x_start ∧
    (⟨1, 1, 1, 0, 1/2, 0, 19/20, 11/200⟩ : Segment).x_start ≤ 1 ∧
    0 ≤ (⟨1, 1, 1, 0, 1/2, 0, 19/20, 11/200⟩ : Segment).y_start ∧
    (⟨1, 1, 1, 0, 1/2, 0, 19/20, 11/200⟩ : Segment).y_start ≤ 1 ∧
    0 ≤ (⟨1, 1, 1, 0, 1/2, 0, 19/20, 11/200⟩ : Segment).x_end ∧
    (⟨1, 1, 1, 0, 1/2, 0, 19/20, 11/200⟩ : Segment).x_end ≤ 1 ∧
    0 ≤ (⟨1, 1, 1, 0, 1/2, 0, 19/20, 11/200⟩ : Segment).y_end ∧
    (⟨1, 1, 1, 0, 1/2, 0, 19/20, 11/200⟩ : Segment).y_end ≤ 1 ∧
    (⟨1, 1, 1, 0, 1/2, 0, 19/20, 11/200⟩ : Segment).x_start ≤
      (⟨1, 1, 1, 0, 1/2, 0, 19/20, 11/200⟩ : Segment).x_end ∧
    (⟨1, 1, 1, 0, 1/2, 0, 19/20, 11/200⟩ : Segment).y_start ≤
      (⟨1, 1, 1, 0, 1/2, 0, 19/20, 11/200⟩ : Segment).y_end := by
  have r1 : round4 ((1 : ℚ)/2) = 1/2 := round4_exact (n := 5000) (by norm_num)
  have r2 : round4 ((0 : ℚ)) = 0 := round4_exact (n := 0) (by norm_num)
  have r3 : round4 ((19 : ℚ)/20) = 19/20 := round4_exact (n := 9500) (by norm_num)
  have r4 : round4 ((11 : ℚ)/200) = 11/200 := round4_exact (n := 550) (by norm_num)
  have hr1 : List.range 1 = [0] := rfl
  have hlist : verse_boxes_from_app_logic [⟨1, 1, 1, 0.5, 0.0275⟩] =
      [⟨1, 1, 1, 0, 1/2, 0, 19/20, 11/200⟩] := by
    norm_num [verse_boxes_from_app_logic, groupByPage, hr1,
      get_verse_highlight_rows, firstVerseRows, rowToSegment,
      clamp01, TOP_FIRST_LINE_Y, LINE_HEIGHT, RIGHT_EDGE, LEFT_EDGE, min_def,
      max_def, List.enum, r1, r2, r3, r4]
  have hmem : (⟨1, 1, 1, 0, 1/2, 0, 19/20, 11/200⟩ : Segment) ∈
      verse_boxes_from_app_logic [⟨1, 1, 1, 0.5, 0.0275⟩] := by
    rw [hlist]
    exact List.mem_singleton_self _
  exact ⟨hmem, C8_segment_bounds [⟨1, 1, 1, 0.5, 0.0275⟩] _ hmem⟩

lemma sortByY_perm (points : List Point) : (sortByY points).Perm points :=
  List.perm_insertionSort _ _

lemma sortByY_sorted (points : List Point) :
    List.Pairwise (fun a b : Point => a.2 ≤ b.2) (sortByY points) := by
  haveI : IsTotal Point (fun a b => a.2 ≤ b.2) := ⟨fun a b => le_total a.2 b.2⟩
  haveI : IsTrans Point (fun a b => a.2 ≤ b.2) := ⟨fun a b c h1 h2 => le_trans h1 h2⟩
  exact List.sorted_insertionSort _ _

lemma sortRowRTL_perm (group : List Point) : (sortRowRTL group).Perm group :=
  List.perm_insertionSort _ _

lemma sortRowRTL_sorted (group : List Point) :
    List.Sorted (fun a b : Point => b.1 ≤ a.1) (sortRowRTL group) := by
  haveI : IsTotal Point (fun a b => -a.1 ≤ -b.1) :=
    ⟨fun a b => le_total (-a.1) (-b.1)⟩
  haveI : IsTrans Point (fun a b => -a.1 ≤ -b.1) :=
    ⟨fun a b c h1 h2 => le_trans h1 h2⟩
  have h := List.sorted_insertionSort (fun a b : Point => -a.1 ≤ -b.1) group
  exact List.Pairwise.imp (fun hab => by linarith) h

lemma groupLoop_flatten (g : ℚ) :
    ∀ (l : List Point) (groups : List (List Point)) (cur : List Point),
      (groupLoop g l groups cur).flatten = groups.flatten ++ (cur ++ l) := by
  intro l
  induction l with
  | nil =>
    intro groups cur
    simp [groupLoop]
  | cons p rest ih =>
    intro groups cur
    cases cur with
    | nil =>
      simp only [groupLoop]
      rw [ih]
      simp
    | cons a as =>
      simp only [groupLoop]
      split_ifs with h
      · rw [ih]
        simp
      · rw [ih]
        simp

lemma flattenMapSort_perm :
    ∀ gs : List (List Point), ((gs.map sortRowRTL).flatten).Perm gs.flatten := by
  intro gs
  induction gs with
  | nil => simp
  | cons G gs ih =>
    simp only [List.map_cons, List.flatten_cons]
    exact (sortRowRTL_perm G).append ih

lemma groupLoop_chain (g : ℚ) :
    ∀ (l : List Point) (groups : List (List Point)) (cur : List Point),
      List.Pairwise (fun a b : Point => a.2 ≤ b.2) l →
      (∀ a : Point, a ∈ groups.flatten ∨ a ∈ cur → ∀ q ∈ l, a.2 ≤ q.2) →
      List.Chain' (fun G G' => ∀ p ∈ G, ∀ q ∈ G', p.2 ≤ q.2) (groups ++ [cur]) →
      List.Chain' (fun G G' => ∀ p ∈ G, ∀ q ∈ G', p.2 ≤ q.2)
        (groupLoop g l groups cur) := by
  intro l
  induction l with
  | nil =>
    intro groups cur _ _ h3
    simpa [groupLoop] using h3
  | cons p rest ih =>
    intro groups cur h1 h2 h3
    have hp : ∀ q ∈ rest, p.2 ≤ q.2 := (List.pairwise_cons.mp h1).1
    have h1' := (List.pairwise_cons.mp h1).2
    rcases List.chain'_append.mp h3 with ⟨hg, -, hedge⟩
    cases cur with
    | nil =>
      simp only [groupLoop]
      apply ih groups [p] h1'
      · intro a ha q hq
        rcases ha with ha | ha
        · exact h2 a (Or.inl ha) q (List.mem_cons_of_mem p hq)
        · rw [List.mem_singleton] at ha
          subst ha
          exact hp q hq
      · apply List.chain'_append.mpr
        refine ⟨hg, List.chain'_singleton _, ?_⟩
        intro G hG C hC
        obtain rfl : [p] = C := by simpa using hC
        intro b hb q hq
        rw [List.mem_singleton] at hq
        subst hq
        have hGmem : G ∈ groups := List.mem_of_mem_getLast? hG
        exact h2 b (Or.inl (List.mem_flatten.mpr ⟨G, hGmem, hb⟩)) q
          (List.mem_cons_self q rest)
    | cons a as =>
      simp only [groupLoop]
      split_ifs with hcond
      · apply ih groups ((a :: as) ++ [p]) h1'
        · intro b hb q hq
          rcases hb with hb | hb
          · exact h2 b (Or.inl hb) q (List.mem_cons_of_mem p hq)
          · rcases List.mem_append.mp hb with hb | hb
            · exact h2 b (Or.inr hb) q (List.mem_cons_of_mem p hq)
            · rw [List.mem_singleton] at hb
              subst hb
              exact hp q hq
        · apply List.chain'_append.mpr
          refine ⟨hg, List.chain'_singleton _, ?_⟩
          intro G hG C hC
          obtain rfl : (a :: as) ++ [p] = C := by simpa using hC
          intro b hb q hq
          rcases List.mem_append.mp hq with hq | hq
          · exact hedge G hG (a :: as) (by simp) b hb q hq
          · rw [List.mem_singleton] at hq
            subst hq
            have hGmem : G ∈ groups := List.mem_of_mem_getLast? hG
            exact h2 b (Or.inl (List.mem_flatten.mpr ⟨G, hGmem, hb⟩)) q
              (List.mem_cons_self q rest)
      · apply ih (groups ++ [a :: as]) [p] h1'
        · intro b hb q hq
          rcases hb with hb | hb
          · rw [List.flatten_append] at hb
            rcases List.mem_append.mp hb with hb | hb
            · exact h2 b (Or.inl hb) q (List.mem_cons_of_mem p hq)
            · simp only [List.flatten_cons, List.flatten_nil,
                List.append_nil] at hb
              exact h2 b (Or.inr hb) q (List.mem_cons_of_mem p hq)
          · rw [List.mem_singleton] at hb
            subst hb
            exact hp q hq
        · apply List.chain'_append.mpr
          refine ⟨h3, List.chain'_singleton _, ?_⟩
          intro G hG C hC
          rw [List.getLast?_concat] at hG
          obtain rfl : a :: as = G := by simpa using hG
          obtain rfl : [p] = C := by simpa using hC
          intro b hb q hq
          rw [List.mem_singleton] at hq
          subst hq
          exact h2 b (Or.inr hb) q (List.mem_cons_self q rest)

lemma sortedGroups_chain (points : List Point) (g : ℚ) :
    List.Chain' (fun G G' => ∀ p ∈ G, ∀ q ∈ G', p.2 ≤ q.2)
      (sortedGroups points g) := by
  unfold sortedGroups
  rw [List.chain'_map]
  have hbase := groupLoop_chain g (sortByY points) [] [] (sortByY_sorted points)
    (by simp) (by simp)
  exact List.Chain'.imp (fun G G' h p hp q hq =>
    h p ((sortRowRTL_perm G).mem_iff.mp hp) q
      ((sortRowRTL_perm G').mem_iff.mp hq)) hbase

/-- Claim C3: `group_and_sort` returns a permutation of its input for every
point list and threshold; within each returned row group the horizontal
coordinates are non-increasing, and across groups the vertical coordinate of
each group's first (anchor) point is non-decreasing. -/
theorem C3_group_and_sort (points : List Point) (g : ℚ) :
    (group_and_sort points g).Perm points ∧
    (∀ row ∈ sortedGroups points g,
      List.Sorted (fun a b : Point => b.1 ≤ a.1) row) ∧
    List.Chain' (fun G G' => ∀ p ∈ G.head?, ∀ q ∈ G'.head?, p.2 ≤ q.2)
      (sortedGroups points g) := by
  refine ⟨?_, ?_, ?_⟩
  · unfold group_and_sort
    have h1 : ((sortedGroups points g).flatten).Perm
        ((groupLoop g (sortByY points) [] []).flatten) := by
      unfold sortedGroups
      exact flattenMapSort_perm _
    have h2 : (groupLoop g (sortByY points) [] []).flatten = sortByY points := by
      rw [groupLoop_flatten]
      simp
    rw [h2] at h1
    exact h1.trans (sortByY_perm points)
  · intro row hrow
    unfold sortedGroups at hrow
    rw [List.mem_map] at hrow
    obtain ⟨G, -, rfl⟩ := hrow
    exact sortRowRTL_sorted G
  · exact List.Chain'.imp (fun G G' h p hp q hq =>
      h p (List.mem_of_mem_head? hp) q (List.mem_of_mem_head? hq))
      (sortedGroups_chain points g)

/-- Claim C3 witness: a two-point instance with one point per row, checking
the permutation, a concrete row's ordering, and the anchor chain. -/
theorem C3_group_and_sort_witness :
    (group_and_sort [((1 : ℚ), (2 : ℚ)), (3, 4)] 1).Perm
      [((1 : ℚ), (2 : ℚ)), (3, 4)] ∧
    List.Sorted (fun a b : Point => b.1 ≤ a.1) [((1 : ℚ), (2 : ℚ))] ∧
    List.Chain' (fun G G' => ∀ p ∈ G.head?, ∀ q ∈ G'.head?, p.2 ≤ q.2)
      (sortedGroups [((1 : ℚ), (2 : ℚ)), (3, 4)] 1) := by
  have h := C3_group_and_sort [((1 : ℚ), (2 : ℚ)), (3, 4)] 1
  have hsg : sortedGroups [((1 : ℚ), (2 : ℚ)), (3, 4)] 1 =
      [[((1 : ℚ), (2 : ℚ))], [((3 : ℚ), (4 : ℚ))]] := by
    norm_num [sortedGroups, groupLoop, sortByY, sortRowRTL,
      List.insertionSort, List.orderedInsert]
  refine ⟨h.1, h.2.1 [((1 : ℚ), (2 : ℚ))] ?_, h.2.2⟩
  rw [hsg]
  simp

end Mushaf
